import Mathlib

/-!
# Verification of the mpopt DMRG optimiser core (`mpopt/optimiser/dmrg.py`)

This file gives a shallow embedding, over exact rational arithmetic, of the
`EffectiveHamiltonian` class and the `DMRG` sweep engine of
`src/mpopt/optimiser/dmrg.py`, and settles the frozen claims about them.

Modelling conventions:
* A numpy `ndarray` of rank `k` is a structure holding its shape (`d0 … d(k-1)`)
  together with a total valuation function `ℕ → … → ℚ`; entries outside the
  shape are junk and never constrained by the theorems.
* `opt_einsum.contract` calls become explicit finite sums over the index
  ranges of the operands, with complex conjugation the identity (real data).
* Python exceptions are modelled with `Except String`; a Python list write
  `l[i] = v` with a possibly negative index `i` is modelled by `pySet`,
  which mirrors Python's negative-index wrap-around.
* The external collaborators that are not part of the optimiser sources
  (`ExplicitMPS` tensor accessors, `scipy.sparse.linalg.eigsh`,
  `split_two_site_tensor`) enter as opaque function parameters, so every
  theorem quantifies over their behaviour.
-/

/-- A rank-1 real numpy array: a length and a valuation. -/
structure Arr1 where
  d0 : ℕ
  val : ℕ → ℚ

/-- A rank-2 real numpy array (matrix). -/
structure Arr2 where
  d0 : ℕ
  d1 : ℕ
  val : ℕ → ℕ → ℚ

/-- A rank-3 real numpy array. -/
structure Arr3 where
  d0 : ℕ
  d1 : ℕ
  d2 : ℕ
  val : ℕ → ℕ → ℕ → ℚ

/-- A rank-4 real numpy array. -/
structure Arr4 where
  d0 : ℕ
  d1 : ℕ
  d2 : ℕ
  d3 : ℕ
  val : ℕ → ℕ → ℕ → ℕ → ℚ

/-- Placeholder array, standing for Python's `None` entries in the freshly
allocated environment lists of `DMRG.__init__`. -/
def Arr3.null : Arr3 := ⟨0, 0, 0, fun _ _ _ => 0⟩

/-- Placeholder rank-4 array (out-of-range list reads; never hit under the
bounds hypotheses of the theorems below). -/
def Arr4.null : Arr4 := ⟨0, 0, 0, 0, fun _ _ _ _ => 0⟩

/-- Python list assignment `l[i] = v` with an `int` index: a negative index
counts from the end (`l[-1]` is the last slot). -/
def pySet {α : Type} (l : List α) (i : ℤ) (v : α) : List α :=
  if i < 0 then l.set (i + l.length).toNat v else l.set i.toNat v

/-- Projection of an `Except` used to state theorems about a successful run. -/
def getOk {α : Type} (e : Except String α) (d : α) : α :=
  match e with
  | .ok a => a
  | .error _ => d

/-- Returns `true` iff the computation did not raise. -/
def exceptOk {α : Type} (e : Except String α) : Bool :=
  match e with
  | .ok _ => true
  | .error _ => false

/-- Embedding of `np.diag(s)` for a rank-1 array `s`: the square diagonal matrix. -/
def npDiag (s : List ℚ) : Arr2 :=
  ⟨s.length, s.length, fun a b => if a = b then s.getD a 0 else 0⟩

/-- The diagonal matrix of reciprocals of the entries of `s`. -/
def inv_diag_arr (s : List ℚ) : Arr2 :=
  ⟨s.length, s.length, fun a b => if a = b then (s.getD a 0)⁻¹ else 0⟩

/-- Embedding of `np.linalg.inv(np.diag(s))`.  LAPACK's LU factorisation of a diagonal
matrix meets a zero pivot exactly when some diagonal entry is exactly zero,
in which case `np.linalg.inv` raises `LinAlgError("Singular matrix")`;
any nonzero entry, however tiny, is inverted silently.  On success the
inverse is the diagonal matrix of reciprocals. -/
def np_linalg_inv_diag (s : List ℚ) : Except String Arr2 :=
  if s.contains 0 then Except.error "Singular matrix"
  else Except.ok (inv_diag_arr s)

/-- Embedding of `np.tensordot(M, T, (1, 0))` for a matrix `M` and a rank-3 tensor `T`
(contract `M`'s second axis with `T`'s first axis), as used for
`tensordot(inv(diag(sv)), left_iso, (1, 0))` in `update_bond`. -/
def tensordot_2_3 (m : Arr2) (t : Arr3) : Arr3 :=
  ⟨m.d0, t.d1, t.d2, fun a p c => ∑ b ∈ Finset.range m.d1, m.val a b * t.val b p c⟩

/-- Embedding of `np.tensordot(T, M, (2, 0))` for a rank-3 tensor `T` and a matrix `M`
(contract `T`'s last axis with `M`'s first axis), as used for
`tensordot(right_iso, inv(diag(sv)), (2, 0))` in `update_bond`. -/
def tensordot_3_2 (t : Arr3) (m : Arr2) : Arr3 :=
  ⟨t.d0, t.d1, m.d1, fun c p b => ∑ a ∈ Finset.range t.d2, t.val c p a * m.val a b⟩

/-- The state owned by a `DMRG` instance: the working MPS data
(`tensors`, `singular_values`), the MPO, the two environment sequences and
the truncation parameters. -/
structure DMRGState where
  tensors : List Arr3
  singular_values : List (List ℚ)
  mpo : List Arr4
  left_environments : List Arr3
  right_environments : List Arr3
  chi_max : ℕ
  cut : ℚ

/-- Modelled from the spec: the `ExplicitMPS` collaborator (class not among
the optimiser sources) "must expose ... extraction of the current two-site
tensor at a given bond; extraction of a single-site left-isometry and
right-isometry tensor by index".  Each accessor is an opaque function of the
currently stored MPS data. -/
structure MPSOracle where
  two_site_right_tensor : List Arr3 → List (List ℚ) → ℕ → Arr4
  single_site_left_iso : List Arr3 → List (List ℚ) → ℕ → Arr3
  single_site_right_iso : List Arr3 → List (List ℚ) → ℕ → Arr3

/-- The contraction `contract("ijk, lnjm, omp, knp -> ilo", right_iso,
mpo_i, conj(right_iso), right_environment)` of `update_right_environment`. -/
def contract_right_env (iso : Arr3) (w : Arr4) (re : Arr3) : Arr3 :=
  ⟨iso.d0, w.d0, iso.d0, fun i l o =>
    ∑ j ∈ Finset.range iso.d1, ∑ k ∈ Finset.range iso.d2,
      ∑ m ∈ Finset.range w.d3, ∑ n ∈ Finset.range w.d1,
        ∑ p ∈ Finset.range iso.d2,
          iso.val i j k * w.val l n j m * iso.val o m p * re.val k n p⟩

/-- The contraction `contract("ijk, lnjm, omp, ilo -> knp", left_iso,
mpo_i, conj(left_iso), left_environment)` of `update_left_environment`. -/
def contract_left_env (iso : Arr3) (w : Arr4) (le : Arr3) : Arr3 :=
  ⟨iso.d2, w.d1, iso.d2, fun k n p =>
    ∑ i ∈ Finset.range iso.d0, ∑ j ∈ Finset.range iso.d1,
      ∑ l ∈ Finset.range w.d0, ∑ m ∈ Finset.range w.d3,
        ∑ o ∈ Finset.range iso.d0,
          iso.val i j k * w.val l n j m * iso.val o m p * le.val i l o⟩

/-- Embedding of `DMRG.update_right_environment(i)`: fold site `i` into
`right_environments[i]` and store the result at `right_environments[i - 1]`
— a Python index, so `i = 0` writes the last slot. -/
def update_right_environment (o : MPSOracle) (s : DMRGState) (i : ℕ) : DMRGState :=
  let right_environment := s.right_environments.getD i Arr3.null
  let right_iso := o.single_site_right_iso s.tensors s.singular_values i
  let new_env := contract_right_env right_iso (s.mpo.getD i Arr4.null) right_environment
  { s with right_environments := pySet s.right_environments ((i : ℤ) - 1) new_env }

/-- Embedding of `DMRG.update_left_environment(i)`: fold site `i` into
`left_environments[i]` and store the result at `left_environments[i + 1]`. -/
def update_left_environment (o : MPSOracle) (s : DMRGState) (i : ℕ) : DMRGState :=
  let left_environment := s.left_environments.getD i Arr3.null
  let left_iso := o.single_site_left_iso s.tensors s.singular_values i
  let new_env := contract_left_env left_iso (s.mpo.getD i Arr4.null) left_environment
  { s with left_environments := s.left_environments.set (i + 1) new_env }

/-- Extent compatibility of one index label shared by two einsum operands:
`numpy`/`opt_einsum` accept the pair iff the extents agree or either is 1
(a size-1 extent broadcasts). -/
def broadcast_ok (a b : ℕ) : Bool :=
  a == b || a == 1 || b == 1

/-- The dimension-consistency check `opt_einsum.contract` performs before
the `"ijk, lnjm, omp, knp -> ilo"` contraction of
`update_right_environment`: every label shared between operands must have
broadcast-compatible extents — `j` between `iso` and the operator, `k` and
`p` between `iso` and the environment, `m` between the operator and
`conj(iso)`, and `n` between the operator and the environment.  On failure
the library raises `ValueError` before any contraction. -/
def right_env_einsum_ok (iso : Arr3) (w : Arr4) (re : Arr3) : Bool :=
  broadcast_ok iso.d1 w.d2 && broadcast_ok iso.d2 re.d0 &&
    broadcast_ok w.d3 iso.d1 && broadcast_ok w.d1 re.d1 &&
      broadcast_ok iso.d2 re.d2

/-- One fold step of `DMRG.__init__` as it really executes: the
`opt_einsum` contraction inside `update_right_environment(i)` first
validates the operand extents (`right_env_einsum_ok`) and raises
`ValueError` on a mismatch; only when the check passes does the step
produce the updated state. -/
def update_right_environment_checked (o : MPSOracle) (s : DMRGState) (i : ℕ) :
    Except String DMRGState :=
  if right_env_einsum_ok (o.single_site_right_iso s.tensors s.singular_values i)
      (s.mpo.getD i Arr4.null) (s.right_environments.getD i Arr3.null) then
    Except.ok (update_right_environment o s i)
  else
    Except.error "operands could not be broadcast together"

/-- The `EffectiveHamiltonian` object: the four stored tensors and the two
shape attributes derived in `__init__`. -/
structure EffectiveHamiltonian where
  left_environment : Arr3
  right_environment : Arr3
  mpo_1 : Arr4
  mpo_2 : Arr4
  x_shape : ℕ × ℕ × ℕ × ℕ
  shape : ℕ × ℕ

/-- Embedding of `EffectiveHamiltonian.__init__(L, mpo_1, mpo_2, R)`: stores the four
tensors and derives `x_shape = (L.shape[2], mpo_1.shape[3], mpo_2.shape[3],
R.shape[2])` and the flattened square `shape`.  The constructor body contains
no validation and no operation that can raise, so it is a total function. -/
def effHamInit (le : Arr3) (w1 w2 : Arr4) (re : Arr3) : EffectiveHamiltonian :=
  let chi_1 := le.d2
  let chi_2 := re.d2
  let d_1 := w1.d3
  let d_2 := w2.d3
  { left_environment := le
    right_environment := re
    mpo_1 := w1
    mpo_2 := w2
    x_shape := (chi_1, d_1, d_2, chi_2)
    shape := (chi_1 * d_1 * d_2 * chi_2, chi_1 * d_1 * d_2 * chi_2) }

/-- The compatibility constraint stated by the spec for building an
`EffectiveHamiltonian` (refinement definition, following the spec's words):
"L's operator index must equal A's left-virtual index; A's right-virtual
index must equal B's left-virtual index; B's right-virtual index must equal
R's operator index". -/
def ehCompatible (le : Arr3) (w1 w2 : Arr4) (re : Arr3) : Prop :=
  le.d1 = w1.d0 ∧ w1.d1 = w2.d0 ∧ w2.d1 = re.d1

instance (le : Arr3) (w1 w2 : Arr4) (re : Arr3) :
    Decidable (ehCompatible le w1 w2 re) := by
  unfold ehCompatible
  infer_instance

/-- Embedding of `np.reshape(x, self.x_shape)` at the top of `_matvec`: read the flat
vector in C order as a rank-4 tensor of shape `x_shape`. -/
def reshape_to_x (h : EffectiveHamiltonian) (x : ℕ → ℚ) : Arr4 :=
  let d_1 := h.x_shape.2.1
  let d_2 := h.x_shape.2.2.1
  let chi_2 := h.x_shape.2.2.2
  ⟨h.x_shape.1, d_1, d_2, chi_2,
    fun i j k l => x (((i * d_1 + j) * d_2 + k) * chi_2 + l)⟩

/-- Embedding of `ndarray.reshape(n)` of a rank-4 tensor: flatten in C order over the
tensor's own shape. -/
def flatten4 (t : Arr4) : ℕ → ℚ :=
  fun v =>
    t.val (v / (t.d1 * t.d2 * t.d3)) (v / (t.d2 * t.d3) % t.d1)
      (v / t.d3 % t.d2) (v % t.d3)

/-- The contraction `contract("ijkl, mni, nopj, oqrk, sql -> mprs", x, L,
mpo_1, mpo_2, R)` at the heart of `_matvec`, with the summed indices ranging
over `x_shape` for `i j k l`, over `L.shape[1]` for `n`, over `mpo_1.shape[1]`
for `o` and over `mpo_2.shape[1]` for `q`. -/
def matvec_tensor (h : EffectiveHamiltonian) (x4 : Arr4) : Arr4 :=
  ⟨h.left_environment.d0, h.mpo_1.d2, h.mpo_2.d2, h.right_environment.d0,
    fun m p r s =>
      ∑ i ∈ Finset.range x4.d0, ∑ j ∈ Finset.range x4.d1,
        ∑ k ∈ Finset.range x4.d2, ∑ l ∈ Finset.range x4.d3,
          x4.val i j k l *
            (∑ n ∈ Finset.range h.left_environment.d1,
              ∑ o ∈ Finset.range h.mpo_1.d1,
                ∑ q ∈ Finset.range h.mpo_2.d1,
                  h.left_environment.val m n i * h.mpo_1.val n o p j *
                    h.mpo_2.val o q r k * h.right_environment.val s q l)⟩

/-- Embedding of `EffectiveHamiltonian._matvec(x)`: reshape the flat input to `x_shape`,
contract against the two environments and the two operator tensors, and
flatten the result back. -/
def matvec (h : EffectiveHamiltonian) (x : ℕ → ℚ) : ℕ → ℚ :=
  flatten4 (matvec_tensor h (reshape_to_x h x))

/-- The output of `split_two_site_tensor`: a left isometry, the vector of
kept singular values, and a right isometry. -/
structure SplitResult where
  left_iso : Arr3
  sv : List ℚ
  right_iso : Arr3

/-- Modelled from the spec: the two external collaborators consumed by
`update_bond` and not among the optimiser sources — the iterative
eigensolver (`scipy.sparse.linalg.eigsh`, returning one eigenvector given
an implicit operator and an initial-guess vector) and the SVD splitter
(`split_two_site_tensor`, returning left factor, singular values and right
factor given a two-site tensor, `chi_max` and `cut`). -/
structure SolverOracle where
  eigsh_vector : EffectiveHamiltonian → (ℕ → ℚ) → (ℕ → ℚ)
  split_two_site_tensor : Arr4 → ℕ → ℚ → SplitResult

/-- The `EffectiveHamiltonian` that `update_bond(i)` builds from
`left_environments[i]`, `mpo[i]`, `mpo[i+1]` and `right_environments[i+1]`. -/
def bond_eff_ham (s : DMRGState) (i : ℕ) : EffectiveHamiltonian :=
  effHamInit (s.left_environments.getD i Arr3.null) (s.mpo.getD i Arr4.null)
    (s.mpo.getD (i + 1) Arr4.null) (s.right_environments.getD (i + 1) Arr3.null)

/-- The result of `split_two_site_tensor` on the eigenvector that `eigsh`
returns for the effective Hamiltonian of bond `(i, i+1)`, seeded by the
current two-site tensor, with the eigenvector reshaped to `x_shape`. -/
def bond_split (o : MPSOracle) (sol : SolverOracle) (s : DMRGState) (i : ℕ) :
    SplitResult :=
  sol.split_two_site_tensor
    (reshape_to_x (bond_eff_ham s i)
      (sol.eigsh_vector (bond_eff_ham s i)
        (flatten4 (o.two_site_right_tensor s.tensors s.singular_values i))))
    s.chi_max s.cut

/-- The "Put back into MPS" block of `update_bond` (assuming both diagonal
inversions succeeded): `tensors[i] = tensordot(inv(diag(sv[i])), left_iso,
(1,0))`, `tensors[i+1] = tensordot(right_iso, inv(diag(sv[i+2])), (2,0))`,
`singular_values[i+1] = new sv`. -/
def bond_writeback (o : MPSOracle) (sol : SolverOracle) (s : DMRGState) (i : ℕ) :
    DMRGState :=
  { s with
    tensors := (s.tensors.set i
        (tensordot_2_3 (inv_diag_arr (s.singular_values.getD i []))
          (bond_split o sol s i).left_iso)).set (i + 1)
      (tensordot_3_2 (bond_split o sol s i).right_iso
        (inv_diag_arr (s.singular_values.getD (i + 2) [])))
    singular_values := s.singular_values.set (i + 1) (bond_split o sol s i).sv }

/-- Embedding of `DMRG.update_bond(i)`: build the effective Hamiltonian of bond
`(i, i+1)`, solve for its eigenvector seeded by the current two-site tensor,
split it (`bond_split`), write the two new site tensors back into the MPS
after un-absorbing the previous singular-value weights (`np.linalg.inv` of
the diagonal matrices — this is where a zero singular value raises), store
the new singular values at bond `i+1`, then refresh `left_environments[i+1]`
and `right_environments[i]`. -/
def update_bond (o : MPSOracle) (sol : SolverOracle) (s : DMRGState) (i : ℕ) :
    Except String DMRGState :=
  do
    let inv_i ← np_linalg_inv_diag (s.singular_values.getD i [])
    let inv_j1 ← np_linalg_inv_diag (s.singular_values.getD (i + 2) [])
    let s1 : DMRGState :=
      { s with
        tensors := (s.tensors.set i (tensordot_2_3 inv_i (bond_split o sol s i).left_iso)).set
          (i + 1) (tensordot_3_2 (bond_split o sol s i).right_iso inv_j1)
        singular_values := s.singular_values.set (i + 1) (bond_split o sol s i).sv }
    let s2 := update_left_environment o s1 i
    pure (update_right_environment o s2 (i + 1))

/-- Embedding of `DMRG.sweep()`: one left-to-right pass of `update_bond` over
`range(nsites - 1)` followed by one right-to-left pass over the reversed
range; a raised exception aborts the remaining calls, as in Python.  The
per-bond update is a parameter so the control flow is stated once for any
state type. -/
def sweep {σ : Type} (ub : ℕ → σ → Except String σ) (nsites : ℕ) (s : σ) :
    Except String σ := do
  let s1 ← (List.range (nsites - 1)).foldlM (fun t i => ub i t) s
  (List.range (nsites - 1)).reverse.foldlM (fun t i => ub i t) s1

/-- The full `DMRG.sweep` with the bond update of this repository. -/
def dmrg_sweep (o : MPSOracle) (sol : SolverOracle) (nsites : ℕ) (s : DMRGState) :
    Except String DMRGState :=
  sweep (fun i t => update_bond o sol t i) nsites s

/-- Embedding of `DMRG.run(num_iter)`: `sweep` executed once per element of
`range(num_iter)`; the loop body ignores the loop variable and consults no
convergence criterion. -/
def run {σ : Type} (sw : σ → Except String σ) (num_iter : ℕ) (s : σ) :
    Except String σ :=
  (List.range num_iter).foldlM (fun t _ => sw t) s

/-- The boundary-environment seeding of `DMRG.__init__`: both boundary
tensors are `np.zeros([chi, start_bond_dim, chi])` with an identity block
written at operator index `0` (left) and `start_bond_dim - 1` (right), where
`start_bond_dim = mpo[0].shape[0]` and `chi = mps.tensors[0].shape[0]`; the
right boundary is stored through the Python index `-1`. -/
def dmrgSeedState (mps_tensors : List Arr3) (mps_singular_values : List (List ℚ))
    (mpo : List Arr4) (chi_max : ℕ) (cut : ℚ) : DMRGState :=
  let n := mps_tensors.length
  let start_bond_dim := (mpo.getD 0 Arr4.null).d0
  let chi := (mps_tensors.getD 0 Arr3.null).d0
  let left_environment : Arr3 :=
    ⟨chi, start_bond_dim, chi, fun a k b => if k = 0 ∧ a = b then 1 else 0⟩
  let right_environment : Arr3 :=
    ⟨chi, start_bond_dim, chi,
      fun a k b => if k = start_bond_dim - 1 ∧ a = b then 1 else 0⟩
  { tensors := mps_tensors
    singular_values := mps_singular_values
    mpo := mpo
    left_environments := (List.replicate n Arr3.null).set 0 left_environment
    right_environments := pySet (List.replicate n Arr3.null) (-1) right_environment
    chi_max := chi_max
    cut := cut }

/-- Embedding of `DMRG.__init__`: raise on an MPS/MPO length mismatch as the very first
statement; otherwise seed the boundary environments (`dmrgSeedState`) and
fold `update_right_environment(i)` for `i = len(mps)-1, …, 1`, each step
first passing `opt_einsum`'s dimension check
(`update_right_environment_checked`) — a mismatch raises `ValueError` out
of `__init__` and aborts the remaining folds.  The optional deep copy of
the MPS is invisible in a pure embedding. -/
def dmrgInit (o : MPSOracle) (mps_tensors : List Arr3)
    (mps_singular_values : List (List ℚ)) (mpo : List Arr4)
    (chi_max : ℕ) (cut : ℚ) : Except String DMRGState :=
  if mps_tensors.length ≠ mpo.length then
    Except.error "The MPS and the MPO have different lengths, but the lengths should be equal."
  else
    (List.range (mps_tensors.length - 1)).reverse.foldlM
      (fun t k => update_right_environment_checked o t (k + 1))
      (dmrgSeedState mps_tensors mps_singular_values mpo chi_max cut)

/-- The `float64` machine epsilon, `2 ** -52`, as an exact rational. -/
def machine_epsilon : ℚ := 1 / 2 ^ 52

/-- The rational `2 ** -60`, written as an explicit normalised rational so that it
evaluates by kernel reduction: a `float64` value strictly between zero and
machine epsilon. -/
def tiny_sv : ℚ := ⟨1, 2 ^ 60, by norm_num, Nat.coprime_one_left _⟩

/-- All-ones rank-3 tensor of shape `(1, 1, 1)`. -/
def one3 : Arr3 := ⟨1, 1, 1, fun _ _ _ => 1⟩

/-- All-ones rank-4 tensor of shape `(1, 1, 1, 1)`. -/
def one4 : Arr4 := ⟨1, 1, 1, 1, fun _ _ _ _ => 1⟩

/-- Concrete MPS accessor oracle whose isometries are the all-ones
dimension-1 tensors. -/
def oracle1 : MPSOracle :=
  ⟨fun _ _ _ => one4, fun _ _ _ => one3, fun _ _ _ => one3⟩

/-- Concrete solver oracle: the eigensolver returns the initial guess and
the splitter returns rank-one all-ones factors with singular value 1. -/
def solver0 : SolverOracle :=
  ⟨fun _ g => g, fun _ _ _ => ⟨one3, [1], one3⟩⟩

/-- Concrete two-site state whose stored neighbouring environments
(`left_environments[1]` valued 5, `right_environments[0]` valued 7) both
differ from the values `update_bond(0)` recomputes for them. -/
def c4_state : DMRGState :=
  ⟨[one3, one3], [[1], [1], [1]], [one4, one4],
    [one3, ⟨1, 1, 1, fun _ _ _ => 5⟩], [⟨1, 1, 1, fun _ _ _ => 7⟩, one3], 2, 0⟩

/-- Concrete two-site state whose singular value at bond 0 is `2 ** -60`:
positive but far below `float64` machine epsilon. -/
def c5_state : DMRGState :=
  ⟨[one3, one3], [[tiny_sv], [1], [1]], [one4, one4],
    [one3, one3], [one3, one3], 2, 0⟩

/-- Concrete two-site state with an exactly zero singular value at bond 0. -/
def c5_zero_state : DMRGState :=
  ⟨[one3, one3], [[0], [1], [1]], [one4, one4],
    [one3, one3], [one3, one3], 2, 0⟩

/-- Trivial MPS accessor oracle used for concrete instances. -/
def oracle0 : MPSOracle :=
  ⟨fun _ _ _ => Arr4.null, fun _ _ _ => Arr3.null, fun _ _ _ => Arr3.null⟩

/-- Left environment with an operator-virtual dimension (1) incompatible
with the left-virtual dimension (2) of `c2_mpo_a`. -/
def c2_left : Arr3 := ⟨1, 1, 1, fun _ _ _ => 1⟩

/-- Operator tensor whose left-virtual dimension 2 mismatches `c2_left`. -/
def c2_mpo_a : Arr4 := ⟨2, 1, 1, 1, fun _ _ _ _ => 1⟩

/-- Second operator tensor for the C2 instance. -/
def c2_mpo_b : Arr4 := ⟨1, 1, 1, 1, fun _ _ _ _ => 1⟩

/-- Right environment for the C2 instance. -/
def c2_right : Arr3 := ⟨1, 1, 1, fun _ _ _ => 1⟩

/-- Empty `DMRGState`, used as the junk default of `getOk`. -/
def DMRGState.null : DMRGState := ⟨[], [], [], [], [], 0, 0⟩

/-- Concrete right boundary environment slot 0 for the C10 witness. -/
def w10_env0 : Arr3 := ⟨1, 1, 1, fun _ _ _ => 3⟩

/-- Concrete right boundary environment slot 1 for the C10 witness. -/
def w10_env1 : Arr3 := ⟨1, 1, 1, fun _ _ _ => 4⟩

/-- Concrete two-site optimizer state for the C10 witness. -/
def w10_state : DMRGState :=
  ⟨[Arr3.null, Arr3.null], [[1], [1], [1]], [Arr4.null, Arr4.null],
    [Arr3.null, Arr3.null], [w10_env0, w10_env1], 2, 0⟩

theorem pySet_neg_one {α : Type} (l : List α) (v : α) :
    pySet l (-1) v = l.set (l.length - 1) v := by
  unfold pySet
  simp only [if_pos (by norm_num : (-1 : ℤ) < 0)]
  congr 1
  omega

/-- Count of an index in the double-pass call list of a sweep. -/
theorem count_range_pair (n i : ℕ) :
    (List.range n ++ (List.range n).reverse).count i = if i < n then 2 else 0 := by
  rw [List.count_append, List.count_reverse]
  rcases lt_or_ge i n with h | h
  · rw [List.count_eq_one_of_mem (List.nodup_range n) (List.mem_range.mpr h), if_pos h]
  · rw [List.count_eq_zero_of_not_mem (by simpa using Nat.not_lt.mpr h),
      if_neg (Nat.not_lt.mpr h)]

/-- C7: constructing a DMRG optimiser from an MPS and an MPO of unequal
lengths raises the length-mismatch error as the very first statement of
`__init__`, before any environment is allocated or computed and before the
MPS is copied:  `dmrgInit` returns the error for every oracle and every
choice of the remaining arguments. -/
theorem c7_init_length_mismatch (o : MPSOracle) (mps_tensors : List Arr3)
    (mps_singular_values : List (List ℚ)) (mpo : List Arr4) (chi_max : ℕ) (cut : ℚ)
    (h : mps_tensors.length ≠ mpo.length) :
    dmrgInit o mps_tensors mps_singular_values mpo chi_max cut =
      Except.error
        "The MPS and the MPO have different lengths, but the lengths should be equal." := by
  unfold dmrgInit
  rw [if_pos h]

/-- Witness for C7 at a concrete mismatched pair (MPS of length 1, MPO of
length 0). -/
theorem c7_init_length_mismatch_witness :
    dmrgInit oracle0 [Arr3.null] [] [] 0 0 =
      Except.error
        "The MPS and the MPO have different lengths, but the lengths should be equal." :=
  c7_init_length_mismatch oracle0 [Arr3.null] [] [] 0 0 (by decide)

/-- C8: `run(n)` executes `sweep` exactly `n` times — `run 0` performs no
sweep and returns the state unchanged, and `run (n+1)` is `run n` followed by
exactly one more sweep; the recursion is uniform in the state, so the number
of sweeps depends only on `n`, never on the state or any energy estimate. -/
theorem c8_run_exact_iterations :
    (∀ (σ : Type) (sw : σ → Except String σ) (s : σ), run sw 0 s = Except.ok s) ∧
    (∀ (σ : Type) (sw : σ → Except String σ) (n : ℕ) (s : σ),
      run sw (n + 1) s = (run sw n s).bind sw) := by
  constructor
  · intro σ sw s
    rfl
  · intro σ sw n s
    unfold run
    rw [List.range_succ, List.foldlM_append]
    simp only [List.foldlM_cons, List.foldlM_nil, bind_pure]
    rfl

/-- C6: one call to `sweep()` performs exactly the calls
`update_bond 0, …, update_bond (N-2)` followed by
`update_bond (N-2), …, update_bond 0` — it equals the monadic fold of the
bond update over precisely that list of bond indices, and in that list every
bond index `i < N-1` occurs exactly twice (and no other index occurs). -/
theorem c6_sweep_call_sequence :
    (∀ (σ : Type) (ub : ℕ → σ → Except String σ) (nsites : ℕ) (s : σ),
      sweep ub nsites s =
        (List.range (nsites - 1) ++ (List.range (nsites - 1)).reverse).foldlM
          (fun t i => ub i t) s) ∧
    (∀ (nsites i : ℕ),
      (List.range (nsites - 1) ++ (List.range (nsites - 1)).reverse).count i =
        if i < nsites - 1 then 2 else 0) := by
  constructor
  · intro σ ub nsites s
    unfold sweep
    rw [List.foldlM_append]
  · intro nsites i
    exact count_range_pair (nsites - 1) i

/-- C2 counterexample: a concrete quadruple whose virtual bond dimensions
are incompatible (L's operator index is 1, A's left-virtual index is 2), yet
`EffectiveHamiltonian.__init__` completes normally, deriving its `x_shape`
and `shape` attributes — construction does not fail. -/
theorem c2_counterexample_init_succeeds :
    ¬ ehCompatible c2_left c2_mpo_a c2_mpo_b c2_right ∧
      (effHamInit c2_left c2_mpo_a c2_mpo_b c2_right).x_shape = (1, 1, 1, 1) ∧
      (effHamInit c2_left c2_mpo_a c2_mpo_b c2_right).shape = (1, 1) := by
  refine ⟨?_, rfl, rfl⟩
  intro h
  exact absurd h.1 (by decide)

/-- C2 amended: `EffectiveHamiltonian.__init__` performs no compatibility
validation at all — for every quadruple of input tensors, compatible or not,
construction succeeds, stores the four tensors unchanged and derives
`x_shape = (L.shape[2], A.shape[3], B.shape[3], R.shape[2])` together with
the flattened square `shape`; an incompatibility can only surface later,
when the matrix-vector action is attempted. -/
theorem c2_amended_init_no_validation (le : Arr3) (w1 w2 : Arr4) (re : Arr3) :
    (effHamInit le w1 w2 re).left_environment = le ∧
      (effHamInit le w1 w2 re).right_environment = re ∧
      (effHamInit le w1 w2 re).mpo_1 = w1 ∧
      (effHamInit le w1 w2 re).mpo_2 = w2 ∧
      (effHamInit le w1 w2 re).x_shape = (le.d2, w1.d3, w2.d3, re.d2) ∧
      (effHamInit le w1 w2 re).shape =
        (le.d2 * w1.d3 * w2.d3 * re.d2, le.d2 * w1.d3 * w2.d3 * re.d2) :=
  ⟨rfl, rfl, rfl, rfl, rfl, rfl⟩

/-- Linearity of the embedded `_matvec`, for any effective Hamiltonian
object. -/
theorem matvec_linear_aux (h : EffectiveHamiltonian) (a b : ℚ) (x y : ℕ → ℚ)
    (v : ℕ) :
    matvec h (fun t => a * x t + b * y t) v = a * matvec h x v + b * matvec h y v := by
  unfold matvec flatten4 matvec_tensor reshape_to_x
  simp only [add_mul, mul_assoc, Finset.sum_add_distrib, ← Finset.mul_sum]

/-- C9: the matrix-vector action of every constructed `EffectiveHamiltonian`
is linear — for all input tensors, scalars `a, b` and vectors `x, y`,
`_matvec` applied to `a*x + b*y` equals `a` times its value on `x` plus `b`
times its value on `y`, exactly, at every component `v`. -/
theorem c9_matvec_linear (le : Arr3) (w1 w2 : Arr4) (re : Arr3) (a b : ℚ)
    (x y : ℕ → ℚ) (v : ℕ) :
    matvec (effHamInit le w1 w2 re) (fun t => a * x t + b * y t) v =
      a * matvec (effHamInit le w1 w2 re) x v +
        b * matvec (effHamInit le w1 w2 re) y v :=
  matvec_linear_aux (effHamInit le w1 w2 re) a b x y v

/-- Reading an untouched slot of a written list. -/
theorem getD_set_ne {α : Type} (l : List α) (i k : ℕ) (v d : α) (h : k ≠ i) :
    (l.set i v).getD k d = l.getD k d := by
  simp [List.getD_eq_getElem?_getD, List.getElem?_set_ne (fun hh => h hh.symm)]

/-- Reading the written slot of a written list. -/
theorem getD_set_self {α : Type} (l : List α) (i : ℕ) (v d : α)
    (h : i < l.length) :
    (l.set i v).getD i d = v := by
  rw [List.getD_eq_getElem?_getD, List.getElem?_set_self h]
  rfl

/-- A Python write at a nonnegative index is an ordinary list write. -/
theorem pySet_nonneg {α : Type} (l : List α) (i : ℕ) (v : α) :
    pySet l (i : ℤ) v = l.set i v := by
  unfold pySet
  rw [if_neg (by omega)]
  simp

/-- At a positive site index `i`, `update_right_environment` rewrites
exactly slot `i - 1` of `right_environments` and nothing else. -/
theorem update_right_environment_pos (o : MPSOracle) (s : DMRGState) (i : ℕ)
    (h : 1 ≤ i) :
    update_right_environment o s i =
      { s with
        right_environments := s.right_environments.set (i - 1)
          (contract_right_env (o.single_site_right_iso s.tensors s.singular_values i)
            (s.mpo.getD i Arr4.null) (s.right_environments.getD i Arr3.null)) } := by
  have h1 : ((i : ℤ) - 1) = ((i - 1 : ℕ) : ℤ) := by omega
  simp only [update_right_environment, h1, pySet_nonneg]

/-- Folding `update_right_environment` over any list of positive site
indices, all smaller than the length of `right_environments`, leaves the MPS
data, the MPO, the left environments, the length of the right-environment
list and its last slot untouched. -/
theorem foldl_update_right_frame (o : MPSOracle) (l : List ℕ) (s : DMRGState)
    (hl : ∀ i ∈ l, 1 ≤ i ∧ i < s.right_environments.length) :
    (l.foldl (fun t k => update_right_environment o t k) s).tensors = s.tensors ∧
    (l.foldl (fun t k => update_right_environment o t k) s).singular_values =
      s.singular_values ∧
    (l.foldl (fun t k => update_right_environment o t k) s).mpo = s.mpo ∧
    (l.foldl (fun t k => update_right_environment o t k) s).left_environments =
      s.left_environments ∧
    (l.foldl (fun t k => update_right_environment o t k) s).chi_max = s.chi_max ∧
    (l.foldl (fun t k => update_right_environment o t k) s).right_environments.length =
      s.right_environments.length ∧
    (l.foldl (fun t k => update_right_environment o t k) s).right_environments.getD
      (s.right_environments.length - 1) Arr3.null =
      s.right_environments.getD (s.right_environments.length - 1) Arr3.null := by
  induction l generalizing s with
  | nil => exact ⟨rfl, rfl, rfl, rfl, rfl, rfl, rfl⟩
  | cons a tl ih =>
    have ha := hl a (List.mem_cons_self a tl)
    have hs : update_right_environment o s a =
        { s with
          right_environments := s.right_environments.set (a - 1)
            (contract_right_env (o.single_site_right_iso s.tensors s.singular_values a)
              (s.mpo.getD a Arr4.null) (s.right_environments.getD a Arr3.null)) } :=
      update_right_environment_pos o s a ha.1
    simp only [List.foldl_cons]
    rw [hs]
    have htl := ih { s with
        right_environments := s.right_environments.set (a - 1)
          (contract_right_env (o.single_site_right_iso s.tensors s.singular_values a)
            (s.mpo.getD a Arr4.null) (s.right_environments.getD a Arr3.null)) }
      (by
        intro i hi
        have := hl i (List.mem_cons_of_mem a hi)
        simpa using this)
    simp only [List.length_set] at htl
    refine ⟨htl.1, htl.2.1, htl.2.2.1, htl.2.2.2.1, htl.2.2.2.2.1,
      htl.2.2.2.2.2.1, ?_⟩
    rw [htl.2.2.2.2.2.2]
    exact getD_set_ne _ _ _ _ _ (by omega)

/-- C10: `update_right_environment(0)` computes the fold of site 0 into
`right_environments[0]` and stores it through the Python index `-1`, i.e.
into the rightmost slot `N-1` of `right_environments` — it does not fail and
does not write left of index 0 — while every other slot of both environment
sequences (and the MPS data and MPO) is left unchanged. -/
theorem c10_update_right_environment_zero (o : MPSOracle) (s : DMRGState)
    (n k : ℕ) (hn : s.right_environments.length = n) (h1 : 1 ≤ n)
    (hk : k < n - 1) :
    (update_right_environment o s 0).left_environments = s.left_environments ∧
    (update_right_environment o s 0).tensors = s.tensors ∧
    (update_right_environment o s 0).singular_values = s.singular_values ∧
    (update_right_environment o s 0).mpo = s.mpo ∧
    (update_right_environment o s 0).right_environments.length = n ∧
    (update_right_environment o s 0).right_environments.getD k Arr3.null =
      s.right_environments.getD k Arr3.null ∧
    (update_right_environment o s 0).right_environments.getD (n - 1) Arr3.null =
      contract_right_env (o.single_site_right_iso s.tensors s.singular_values 0)
        (s.mpo.getD 0 Arr4.null) (s.right_environments.getD 0 Arr3.null) := by
  have hre : (update_right_environment o s 0).right_environments =
      s.right_environments.set (n - 1)
        (contract_right_env (o.single_site_right_iso s.tensors s.singular_values 0)
          (s.mpo.getD 0 Arr4.null) (s.right_environments.getD 0 Arr3.null)) := by
    simp only [update_right_environment]
    rw [show ((0 : ℕ) : ℤ) - 1 = (-1 : ℤ) by norm_num, pySet_neg_one, hn]
  refine ⟨rfl, rfl, rfl, rfl, ?_, ?_, ?_⟩
  · rw [hre, List.length_set, hn]
  · rw [hre]
    exact getD_set_ne _ _ _ _ _ (by omega)
  · rw [hre]
    exact getD_set_self _ _ _ _ (by omega)

/-- Witness for C10 on a concrete two-site state. -/
theorem c10_update_right_environment_zero_witness :
    (update_right_environment oracle0 w10_state 0).left_environments =
      w10_state.left_environments ∧
    (update_right_environment oracle0 w10_state 0).tensors = w10_state.tensors ∧
    (update_right_environment oracle0 w10_state 0).singular_values =
      w10_state.singular_values ∧
    (update_right_environment oracle0 w10_state 0).mpo = w10_state.mpo ∧
    (update_right_environment oracle0 w10_state 0).right_environments.length = 2 ∧
    (update_right_environment oracle0 w10_state 0).right_environments.getD 0 Arr3.null =
      w10_state.right_environments.getD 0 Arr3.null ∧
    (update_right_environment oracle0 w10_state 0).right_environments.getD
      (2 - 1) Arr3.null =
      contract_right_env
        (oracle0.single_site_right_iso w10_state.tensors w10_state.singular_values 0)
        (w10_state.mpo.getD 0 Arr4.null)
        (w10_state.right_environments.getD 0 Arr3.null) :=
  c10_update_right_environment_zero oracle0 w10_state 2 0 rfl (by decide) (by decide)

/-- A Python write never changes the length of the list. -/
theorem pySet_length {α : Type} (l : List α) (i : ℤ) (v : α) :
    (pySet l i v).length = l.length := by
  unfold pySet
  split <;> simp

/-- When both previous singular-value vectors are free of
zeros: both inversions succeed and the call returns the written-back state
with its two refreshed environments. -/
theorem update_bond_ok (o : MPSOracle) (sol : SolverOracle) (s : DMRGState) (i : ℕ)
    (h1 : (s.singular_values.getD i []).contains 0 = false)
    (h2 : (s.singular_values.getD (i + 2) []).contains 0 = false) :
    update_bond o sol s i =
      Except.ok (update_right_environment o
        (update_left_environment o (bond_writeback o sol s i) i) (i + 1)) := by
  unfold update_bond np_linalg_inv_diag
  rw [if_neg (by rw [h1]; decide), if_neg (by rw [h2]; decide)]
  rfl

/-- A successful `update_bond` forces both previous singular-value vectors
to be free of zeros. -/
theorem update_bond_isOk_elim (o : MPSOracle) (sol : SolverOracle) (s : DMRGState)
    (i : ℕ) (hok : exceptOk (update_bond o sol s i) = true) :
    (s.singular_values.getD i []).contains 0 = false ∧
      (s.singular_values.getD (i + 2) []).contains 0 = false := by
  by_cases h1 : (s.singular_values.getD i []).contains 0
  · exfalso
    unfold update_bond np_linalg_inv_diag at hok
    rw [if_pos h1] at hok
    exact Bool.noConfusion hok
  · by_cases h2 : (s.singular_values.getD (i + 2) []).contains 0
    · exfalso
      unfold update_bond np_linalg_inv_diag at hok
      rw [if_neg (by simpa using h1), if_pos h2] at hok
      exact Bool.noConfusion hok
    · exact ⟨by simpa using h1, by simpa using h2⟩

/-- C5 amended: `update_bond` surfaces the fatal `LinAlgError` to its caller
exactly when a previous singular value used for gauge un-absorption (a
component of the vector at bond `i` or at bond `i+2`) is **exactly zero**;
positive values below machine epsilon are inverted silently (see the
counterexample). -/
theorem c5_amended_zero_singular_value_raises (o : MPSOracle) (sol : SolverOracle)
    (s : DMRGState) (i : ℕ)
    (h : (s.singular_values.getD i []).contains 0 = true ∨
      (s.singular_values.getD (i + 2) []).contains 0 = true) :
    update_bond o sol s i = Except.error "Singular matrix" := by
  unfold update_bond np_linalg_inv_diag
  by_cases h1 : (s.singular_values.getD i []).contains 0
  · rw [if_pos h1]
    rfl
  · rcases h with h | h
    · exact absurd h (by simpa using h1)
    · rw [if_neg (by simpa using h1), if_pos h]
      rfl

/-- Witness for the amended C5: a concrete state with singular value exactly
zero at bond 0 makes `update_bond(0)` raise. -/
theorem c5_amended_zero_singular_value_raises_witness :
    update_bond oracle1 solver0 c5_zero_state 0 = Except.error "Singular matrix" :=
  c5_amended_zero_singular_value_raises oracle1 solver0 c5_zero_state 0
    (Or.inl (by decide))

/-- C5 counterexample: the singular value `2 ** -60` at bond 0 of `c5_state`
is strictly positive but far below `float64` machine epsilon, yet
`update_bond(0)` completes without surfacing any error — the
inverse-diagonal multiplication is performed silently.  Only an exactly zero
singular value raises. -/
theorem c5_counterexample_below_eps_no_error :
    (0 : ℚ) < tiny_sv ∧ tiny_sv < machine_epsilon ∧
    c5_state.singular_values.getD 0 [] = [tiny_sv] ∧
    exceptOk (update_bond oracle1 solver0 c5_state 0) = true := by
  have heq : tiny_sv = 1 / 2 ^ 60 := by
    unfold tiny_sv
    rw [Rat.mk'_eq_divInt]
    norm_num [Rat.divInt_eq_div]
  refine ⟨by decide, ?_, rfl, ?_⟩
  · rw [heq]
    unfold machine_epsilon
    norm_num
  · rw [update_bond_ok oracle1 solver0 c5_state 0 (by decide) (by decide)]
    rfl

/-- The function `update_right_environment` only touches the right environments. -/
theorem update_right_environment_left_eq (o : MPSOracle) (s : DMRGState) (i : ℕ) :
    (update_right_environment o s i).left_environments = s.left_environments := rfl

/-- The function `update_left_environment` only touches the left environments. -/
theorem update_left_environment_right_eq (o : MPSOracle) (s : DMRGState) (i : ℕ) :
    (update_left_environment o s i).right_environments = s.right_environments := rfl

/-- The left-environment write of `update_left_environment`, in `List.set`
form. -/
theorem update_left_environment_left_eq (o : MPSOracle) (s : DMRGState) (i : ℕ) :
    (update_left_environment o s i).left_environments =
      s.left_environments.set (i + 1)
        (contract_left_env (o.single_site_left_iso s.tensors s.singular_values i)
          (s.mpo.getD i Arr4.null) (s.left_environments.getD i Arr3.null)) := rfl

/-- The function `bond_writeback` leaves both environment sequences untouched. -/
theorem bond_writeback_envs_eq (o : MPSOracle) (sol : SolverOracle) (s : DMRGState)
    (i : ℕ) :
    (bond_writeback o sol s i).left_environments = s.left_environments ∧
      (bond_writeback o sol s i).right_environments = s.right_environments :=
  ⟨rfl, rfl⟩

/-- C4 amended: a successful `update_bond(i)` recomputes exactly **two**
neighbouring environment tensors — it writes `left_environments[i+1]` (via
`update_left_environment(i)`) and `right_environments[i]` (via
`update_right_environment(i+1)`) — and every other slot of both environment
sequences, and both lengths, are unchanged. -/
theorem c4_amended_two_env_slots (o : MPSOracle) (sol : SolverOracle)
    (s : DMRGState) (i k k2 : ℕ)
    (hok : exceptOk (update_bond o sol s i) = true)
    (hk : k ≠ i + 1) (hk2 : k2 ≠ i) :
    (getOk (update_bond o sol s i) DMRGState.null).left_environments.length =
      s.left_environments.length ∧
    (getOk (update_bond o sol s i) DMRGState.null).right_environments.length =
      s.right_environments.length ∧
    (getOk (update_bond o sol s i) DMRGState.null).left_environments.getD k Arr3.null =
      s.left_environments.getD k Arr3.null ∧
    (getOk (update_bond o sol s i) DMRGState.null).right_environments.getD k2
      Arr3.null = s.right_environments.getD k2 Arr3.null := by
  obtain ⟨h1, h2⟩ := update_bond_isOk_elim o sol s i hok
  rw [update_bond_ok o sol s i h1 h2]
  simp only [getOk]
  rw [update_right_environment_pos o
    (update_left_environment o (bond_writeback o sol s i) i) (i + 1) (by omega)]
  refine ⟨?_, ?_, ?_, ?_⟩
  · show (update_left_environment o (bond_writeback o sol s i) i).left_environments.length =
      s.left_environments.length
    rw [update_left_environment_left_eq, List.length_set]
    rfl
  · show ((update_left_environment o (bond_writeback o sol s i) i).right_environments.set
      (i + 1 - 1) _).length = s.right_environments.length
    rw [List.length_set, update_left_environment_right_eq]
    rfl
  · show (update_left_environment o (bond_writeback o sol s i) i).left_environments.getD
      k Arr3.null = s.left_environments.getD k Arr3.null
    rw [update_left_environment_left_eq]
    exact (getD_set_ne _ _ _ _ _ hk).trans rfl
  · show ((update_left_environment o (bond_writeback o sol s i) i).right_environments.set
      (i + 1 - 1) _).getD k2 Arr3.null = s.right_environments.getD k2 Arr3.null
    rw [getD_set_ne _ _ _ _ _ (by omega), update_left_environment_right_eq]
    rfl

/-- Witness for the amended C4 on a concrete two-site state: bond update 0
leaves `left_environments[0]` and `right_environments[1]` (and both lengths)
unchanged. -/
theorem c4_amended_two_env_slots_witness :
    (getOk (update_bond oracle1 solver0 c4_state 0)
        DMRGState.null).left_environments.length =
      c4_state.left_environments.length ∧
    (getOk (update_bond oracle1 solver0 c4_state 0)
        DMRGState.null).right_environments.length =
      c4_state.right_environments.length ∧
    (getOk (update_bond oracle1 solver0 c4_state 0)
        DMRGState.null).left_environments.getD 0 Arr3.null =
      c4_state.left_environments.getD 0 Arr3.null ∧
    (getOk (update_bond oracle1 solver0 c4_state 0)
        DMRGState.null).right_environments.getD 1 Arr3.null =
      c4_state.right_environments.getD 1 Arr3.null :=
  c4_amended_two_env_slots oracle1 solver0 c4_state 0 0 1
    (by rw [update_bond_ok oracle1 solver0 c4_state 0 (by decide) (by decide)]; rfl)
    (by decide) (by decide)

/-- C4 counterexample: on the concrete state `c4_state`, `update_bond(0)`
succeeds and **both** `left_environments[1]` and `right_environments[0]`
change value — two slots in total differ, not exactly one, refuting the
claim that exactly one environment slot differs after a bond update. -/
theorem c4_counterexample_two_slots_differ :
    exceptOk (update_bond oracle1 solver0 c4_state 0) = true ∧
    ((getOk (update_bond oracle1 solver0 c4_state 0)
        DMRGState.null).left_environments.getD 1 Arr3.null).val 0 0 0 ≠
      (c4_state.left_environments.getD 1 Arr3.null).val 0 0 0 ∧
    ((getOk (update_bond oracle1 solver0 c4_state 0)
        DMRGState.null).right_environments.getD 0 Arr3.null).val 0 0 0 ≠
      (c4_state.right_environments.getD 0 Arr3.null).val 0 0 0 := by
  rw [update_bond_ok oracle1 solver0 c4_state 0 (by decide) (by decide)]
  simp only [getOk]
  refine ⟨rfl, ?_, ?_⟩
  · rw [update_right_environment_left_eq, update_left_environment_left_eq,
      getD_set_self _ _ _ _ (by decide)]
    simp [contract_left_env, oracle1, one3, one4, c4_state, bond_writeback,
      Finset.sum_range_succ, List.getD]
  · rw [update_right_environment_pos oracle1
      (update_left_environment oracle1 (bond_writeback oracle1 solver0 c4_state 0) 0)
      1 (by omega)]
    show (((update_left_environment oracle1 (bond_writeback oracle1 solver0 c4_state 0)
        0).right_environments.set (1 - 1) _).getD 0 Arr3.null).val 0 0 0 ≠ _
    rw [getD_set_self _ _ _ _ (by decide)]
    simp [contract_right_env, oracle1, one3, one4, c4_state, bond_writeback,
      update_left_environment, Finset.sum_range_succ, List.getD]

/-- C3: on a successful `update_bond(i)` (with `j = i+1`), the MPS is
written back exactly as the source prescribes: the new tensor at site `i` is
the inverse of the diagonal matrix of the **previous** singular values at
bond `i` multiplied into the left factor of the split — entrywise, row `a`
of the left factor scaled by the reciprocal of the `a`-th old singular value
— the new tensor at site `j` is the right factor multiplied by the inverse
diagonal of the previous singular values at bond `j+1` — entrywise, layer
`b2` scaled by the reciprocal of the `b2`-th old singular value at bond
`i+2` — and the singular-value vector stored at bond `j` is replaced by the
new singular values returned by the split. -/
theorem c3_update_bond_writeback (o : MPSOracle) (sol : SolverOracle)
    (s : DMRGState) (i a p c c2 p2 b2 : ℕ)
    (hok : exceptOk (update_bond o sol s i) = true)
    (hi : i + 1 < s.tensors.length)
    (hsv : i + 1 < s.singular_values.length)
    (ha : a < (s.singular_values.getD i []).length)
    (hb : b2 < (bond_split o sol s i).right_iso.d2) :
    ((getOk (update_bond o sol s i) DMRGState.null).tensors.getD i Arr3.null).val
        a p c =
      ((s.singular_values.getD i []).getD a 0)⁻¹ *
        (bond_split o sol s i).left_iso.val a p c ∧
    ((getOk (update_bond o sol s i) DMRGState.null).tensors.getD (i + 1)
        Arr3.null).val c2 p2 b2 =
      (bond_split o sol s i).right_iso.val c2 p2 b2 *
        ((s.singular_values.getD (i + 2) []).getD b2 0)⁻¹ ∧
    (getOk (update_bond o sol s i) DMRGState.null).singular_values.getD (i + 1) [] =
      (bond_split o sol s i).sv := by
  obtain ⟨h1, h2⟩ := update_bond_isOk_elim o sol s i hok
  rw [update_bond_ok o sol s i h1 h2]
  simp only [getOk]
  have ht : (update_right_environment o
      (update_left_environment o (bond_writeback o sol s i) i) (i + 1)).tensors =
      (s.tensors.set i
        (tensordot_2_3 (inv_diag_arr (s.singular_values.getD i []))
          (bond_split o sol s i).left_iso)).set (i + 1)
        (tensordot_3_2 (bond_split o sol s i).right_iso
          (inv_diag_arr (s.singular_values.getD (i + 2) []))) := rfl
  have hsv' : (update_right_environment o
      (update_left_environment o (bond_writeback o sol s i) i)
        (i + 1)).singular_values =
      s.singular_values.set (i + 1) (bond_split o sol s i).sv := rfl
  rw [ht, hsv']
  refine ⟨?_, ?_, ?_⟩
  · rw [getD_set_ne _ _ _ _ _ (by omega), getD_set_self _ _ _ _ (by omega)]
    simp only [tensordot_2_3, inv_diag_arr]
    rw [Finset.sum_eq_single_of_mem a (Finset.mem_range.mpr ha)
      (fun b' _ hba => by rw [if_neg fun hh => hba hh.symm, zero_mul])]
    rw [if_pos rfl]
  · rw [getD_set_self _ _ _ _ (by simpa using hi)]
    simp only [tensordot_3_2, inv_diag_arr]
    rw [Finset.sum_eq_single_of_mem b2 (Finset.mem_range.mpr hb)
      (fun a' _ hab => by rw [if_neg hab, mul_zero])]
    rw [if_pos rfl]
  · exact getD_set_self _ _ _ _ (by omega)

/-- Witness for C3 on the concrete two-site state `c4_state`. -/
theorem c3_update_bond_writeback_witness :
    ((getOk (update_bond oracle1 solver0 c4_state 0) DMRGState.null).tensors.getD 0
        Arr3.null).val 0 0 0 =
      ((c4_state.singular_values.getD 0 []).getD 0 0)⁻¹ *
        (bond_split oracle1 solver0 c4_state 0).left_iso.val 0 0 0 ∧
    ((getOk (update_bond oracle1 solver0 c4_state 0) DMRGState.null).tensors.getD 1
        Arr3.null).val 0 0 0 =
      (bond_split oracle1 solver0 c4_state 0).right_iso.val 0 0 0 *
        ((c4_state.singular_values.getD 2 []).getD 0 0)⁻¹ ∧
    (getOk (update_bond oracle1 solver0 c4_state 0) DMRGState.null).singular_values.getD
        1 [] = (bond_split oracle1 solver0 c4_state 0).sv :=
  c3_update_bond_writeback oracle1 solver0 c4_state 0 0 0 0 0 0 0
    (by rw [update_bond_ok oracle1 solver0 c4_state 0 (by decide) (by decide)]; rfl)
    (by decide) (by decide) (by decide) (by decide)
